import Mathlib

/-!
Verification of the CASICS extractor's identifier-splitting, comment-filtering,
element-collection and frequency-aggregation code.

Strings from the Python sources are modelled as `List Char`; the Python
functions are embedded as executable Lean definitions that follow the source
line by line.  All character classes (`[a-z]`, `[A-Z]`, `[0-9]`, `[A-Za-z]`)
in the sources are ASCII classes, matching Lean's `Char.isLower`,
`Char.isUpper`, `Char.isDigit` and `Char.isAlpha`.
-/

namespace Extractor

/-! ### Splitters from dev/generate-frequency-tables/gather_name_stats.py -/
/-- `_hard_split_chars = '$~_.:/'` from gather_name_stats.py. -/
def hardSplitChars : List Char := ['$', '~', '_', '.', ':', '/']


/-- `str.translate(identifier, _hard_splitter)`: every hard-split character is
replaced by a space, all other characters are kept. -/
def hardTranslate (l : List Char) : List Char :=
  l.map (fun c => if c ∈ hardSplitChars then ' ' else c)


/-- Python's whitespace set for `str.split()` and `str.strip()` (ASCII part). -/
def isPySpace (c : Char) : Bool :=
  c = ' ' || c = '\t' || c = '\n' || c = '\r' || c = '\x0b' || c = '\x0c'


/-- Helper for `str.split()` with no argument: runs of whitespace separate
tokens and empty tokens are never produced.  `cur` is the reversed current
token. -/
def splitWsAux : List Char → List Char → List (List Char)
  | [], cur => if cur.isEmpty then [] else [cur.reverse]
  | c :: rest, cur =>
    if isPySpace c then
      if cur.isEmpty then splitWsAux rest [] else cur.reverse :: splitWsAux rest []
    else splitWsAux rest (c :: cur)


/-- Python `s.split()` (no separator argument). -/
def pySplitWs (l : List Char) : List (List Char) := splitWsAux l []


/-- One pass of `re.sub(_camel_case, r' \1', s)` with
`_camel_case = ((?<=[a-z0-9])[A-Z])`: a space is inserted before every
uppercase letter that immediately follows a lowercase letter or a digit. -/
def camelMark : List Char → List Char
  | a :: b :: rest =>
    if (a.isLower || a.isDigit) && b.isUpper then a :: ' ' :: camelMark (b :: rest)
    else a :: camelMark (b :: rest)
  | l => l


/-- `re.search(_two_capitals, s)` with `_two_capitals = [A-Z][A-Z]`: the string
contains two adjacent uppercase letters somewhere. -/
def hasTwoAdjacentCapitals : List Char → Bool
  | a :: b :: rest => (a.isUpper && b.isUpper) || hasTwoAdjacentCapitals (b :: rest)
  | _ => false


/-- `safe_camelcase_split` from gather_name_stats.py: if the identifier has two
adjacent capitals anywhere it is returned unchanged as a one-element list;
otherwise it is split at lower/digit-to-upper transitions. -/
def safe_camelcase_split (l : List Char) : List (List Char) :=
  if hasTwoAdjacentCapitals l then [l]
  else pySplitWs (camelMark l)


/-- `simple_split` from gather_name_stats.py: translate hard delimiters to
spaces, split on whitespace, then split each token at lower/digit-to-upper
transitions and flatten. -/
def simple_split (l : List Char) : List (List Char) :=
  let parts := pySplitWs (hardTranslate l)
  (parts.map (fun token => pySplitWs (camelMark token))).flatten


/-! ### Splitters from id_splitters.py -/
/-- `_delimiter_chars = '_.:'` from id_splitters.py. -/
def delimiterChars : List Char := ['_', '.', ':']


/-- `str.translate(identifier, _delimiter_splitter)` from id_splitters.py. -/
def delimTranslate (l : List Char) : List Char :=
  l.map (fun c => if c ∈ delimiterChars then ' ' else c)


/-- Helper for Python `s.split(' ')`: splitting on the explicit separator
keeps empty tokens. -/
def splitOnSpaceAux : List Char → List Char → List (List Char)
  | [], cur => [cur.reverse]
  | c :: rest, cur =>
    if c = ' ' then cur.reverse :: splitOnSpaceAux rest []
    else splitOnSpaceAux rest (c :: cur)


/-- Python `s.split(' ')`. -/
def pySplitOnSpace (l : List Char) : List (List Char) := splitOnSpaceAux l []


/-- `delimiter_split` from id_splitters.py: split on explicit delimiters only,
dropping empty parts via the `[p for p in parts if p]` comprehension. -/
def delimiter_split (l : List Char) : List (List Char) :=
  (pySplitOnSpace (delimTranslate l)).filter (fun p => !p.isEmpty)


/-- One pass of `re.sub(r'((?<=[a-z])[A-Z])', r' \1', s)` used by
`naive_camelcase_split`: the lookbehind class is `[a-z]` only, digits do not
enable a split. -/
def camelMarkNaive : List Char → List Char
  | a :: b :: rest =>
    if a.isLower && b.isUpper then a :: ' ' :: camelMarkNaive (b :: rest)
    else a :: camelMarkNaive (b :: rest)
  | l => l


/-- `naive_camelcase_split` from id_splitters.py. -/
def naive_camelcase_split (l : List Char) : List (List Char) :=
  pySplitWs (camelMarkNaive l)


/-! ### Comment filtering from file_parser.py

The module-level regular expressions of file_parser.py are embedded as
character-list matchers with the semantics of Python's `re.match` (anchored at
the start of the string; `.` does not match a newline; `$` matches at the end
of the string or just before a trailing final newline). -/
/-- `_min_comment_len = 4` from file_parser.py. -/
def min_comment_len : Nat := 4


/-- The character class `[ \t\v]` used by the vim and emacs modeline patterns. -/
def isCommentWsClass (c : Char) : Bool := c = ' ' || c = '\t' || c = '\x0b'


/-- `re.match(_nontext_comment, s)` with pattern `^[^A-Za-z]+$`: since a
newline is itself in `[^A-Za-z]` and `$` also matches just before a trailing
newline, the pattern matches exactly the non-empty strings containing no
ASCII letter. -/
def nontextMatch (l : List Char) : Bool :=
  !l.isEmpty && l.all (fun c => !c.isAlpha)


/-- `re.match(_hashbang_comment, s)` with pattern `^#!.*$`: the string starts
with `#!` and the remainder contains no newline, except possibly one final
newline (consumed by `$`). -/
def hashbangMatch (l : List Char) : Bool :=
  match l with
  | '#' :: '!' :: rest =>
    let tail := rest.dropWhile (fun c => c ≠ '\n')
    tail.isEmpty || tail = ['\n']
  | _ => false


/-- Occurrence of `pat` as a contiguous sublist of `l`. -/
def containsSeq (pat : List Char) : List Char → Bool
  | [] => pat.isEmpty
  | c :: rest => pat.isPrefixOf (c :: rest) || containsSeq pat rest


/-- `re.match(_coding_comment, s)` with pattern `^[ \t\v]*.*?coding[:=]`: the
leading whitespace class is subsumed by the lazy `.*?`, neither of which can
cross a newline, so the pattern matches exactly when `coding:` or `coding=`
occurs somewhere in the first line of the string. -/
def codingMatch (l : List Char) : Bool :=
  containsSeq "coding:".toList (l.takeWhile (fun c => c ≠ '\n')) ||
  containsSeq "coding=".toList (l.takeWhile (fun c => c ≠ '\n'))


/-- `re.match(_vim_comment, s)` with pattern `^[ \t\v]*vim`. -/
def vimMatch (l : List Char) : Bool :=
  "vim".toList.isPrefixOf (l.dropWhile isCommentWsClass)


/-- `re.match(_emacs_comment, s)` with pattern `^[ \t\v]*-\*-[ \t]+mode:`. -/
def emacsMatch (l : List Char) : Bool :=
  match l.dropWhile isCommentWsClass with
  | '-' :: '*' :: '-' :: rest =>
    !(rest.takeWhile (fun c => c = ' ' || c = '\t')).isEmpty &&
    "mode:".toList.isPrefixOf (rest.dropWhile (fun c => c = ' ' || c = '\t'))
  | _ => false


/-- Python `s.strip()` restricted to ASCII whitespace. -/
def pyStrip (l : List Char) : List Char :=
  ((l.dropWhile isPySpace).reverse.dropWhile isPySpace).reverse


/-- `ignorable_comment` from file_parser.py: the stripped line must start with
`#`, and in addition the raw line is shorter than `_min_comment_len`, or one of
the five module-level patterns matches the raw line. -/
def ignorable_comment (l : List Char) : Bool :=
  "#".toList.isPrefixOf (pyStrip l) &&
  (decide (l.length < min_comment_len) || nontextMatch l || codingMatch l ||
    vimMatch l || emacsMatch l || hashbangMatch l)


/-- The predicate asserted by the specification sentence for
`ignorable_comment`: the stripped line is shorter than 4 characters, contains
no alphabetic character, or matches the shebang, encoding or editor-modeline
patterns — with no condition requiring the line to be a `#` comment and with
the length threshold applied to the stripped line. -/
def ignorable_comment_claimed (l : List Char) : Bool :=
  decide ((pyStrip l).length < 4) || nontextMatch (pyStrip l) ||
  hashbangMatch (pyStrip l) || codingMatch (pyStrip l) ||
  vimMatch (pyStrip l) || emacsMatch (pyStrip l)

/-! ### The AST element collector from file_parser.py

A subset of the Python abstract syntax tree sufficient for the visitor code:
expression statements, assignments, for loops, function and class
definitions, imports, names, numbers, strings, tuples, lists, attribute
accesses and calls.  The child collections are represented by the mutually
defined list types `PyExprList`, `PyKwList` and `PyStmtList`, so that the
visitors below are structurally recursive and computable by the kernel.
A call keyword carries an optional argument name, absent for `f(**d)`
double-star arguments. -/
mutual

inductive PyExpr : Type where
  | nameE (id : String)
  | numE (n : Int)
  | strE (s : String)
  | tupleE (elts : PyExprList)
  | listE (elts : PyExprList)
  | attrE (value : PyExpr) (attrName : String)
  | callE (func : PyExpr) (args : PyExprList) (keywords : PyKwList)

inductive PyExprList : Type where
  | nil
  | cons (head : PyExpr) (tail : PyExprList)

inductive PyKwList : Type where
  | nil
  | cons (argName : Option String) (value : PyExpr) (tail : PyKwList)

end

mutual

inductive PyStmt : Type where
  | exprStmt (value : PyExpr)
  | assign (targets : PyExprList) (value : PyExpr)
  | forStmt (target : PyExpr) (iter : PyExpr) (body orelse : PyStmtList)
  | functionDef (fname : String) (args : List String) (defaults : PyExprList)
      (body : PyStmtList)
  | classDef (cname : String) (body : PyStmtList)
  | importStmt (names : List String)
  | importFrom (module : Option String) (names : List String)

inductive PyStmtList : Type where
  | nil
  | cons (head : PyStmt) (tail : PyStmtList)

end

/-- `hasattr(node, 'value')` together with the `node.value` access used by the
docstring checks: expression statements and assignments carry a `value`
field, the other statement forms do not. -/
def stmtValue : PyStmt → Option PyExpr
  | .exprStmt v => some v
  | .assign _ v => some v
  | _ => none


/-- Python exceptions that the visitor code can raise. -/
inductive PyErr : Type where
  | nameError (msg : String)
  | typeError (msg : String)
  deriving DecidableEq


/-- The mutable state of `ElementCollector`.  `imports` holds optional strings
because `visit_ImportFrom` appends `node.module`, which is `None` for
relative imports with a `*` alias. -/
structure Collector : Type where
  imports : List (Option String)
  classes : List String
  functions : List String
  docstrings : List String
  variables_ : List String
  comments : List String
  strings : List String
  calls : List String
  current_class : Option String
  current_function : Option String
  deriving DecidableEq

def initCollector : Collector :=
  { imports := [], classes := [], functions := [], docstrings := [],
    variables_ := [], comments := [], strings := [], calls := [],
    current_class := none, current_function := none }


/-! Noise-filter predicates from file_parser.py. -/
/-- `_min_name_len = 3` from file_parser.py. -/
def min_name_len : Nat := 3


/-- `_min_string_len = 6` from file_parser.py. -/
def min_string_len : Nat := 6


/-- `_ignorable_names` from file_parser.py, transcribed verbatim. -/
def ignorable_names : List String := [
  "_",
  "__abs__", "__add__", "__and__", "__ceil__", "__cmp__", "__coerce__",
  "__complex__", "__contains__", "__copy__", "__deepcopy__", "__del__",
  "__delete__", "__delitem__", "__dir__", "__div__", "__divmod__",
  "__eq__", "__float__", "__floor__", "__floordiv__", "__format__",
  "__ge__", "__get__", "__getitem__", "__gt__", "__hash__", "__hex__",
  "__iadd__", "__iand__", "__idiv__", "__ifloordiv__", "__ilshift__",
  "__imod__", "__imul__", "__index__", "__init__", "__int__",
  "__invert__", "__ior__", "__ipow__", "__irshift__", "__isub__",
  "__iter__", "__itruediv__", "__ixor__", "__le__", "__len__", "__long__",
  "__lshift__", "__lt__", "__missing__", "__mod__", "__mul__", "__ne__",
  "__neg__", "__new__", "__nonzero__", "__oct__", "__or__", "__pos__",
  "__pow__", "__radd__", "__rand__", "__rdiv__", "__rdivmod__", "__repr__",
  "__reversed__", "__rfloordiv__", "__rlshift__", "__rmod__", "__rmul__",
  "__ror__", "__round__", "__rpow__", "__rrshift__", "__rshift__",
  "__rsub__", "__rtruediv__", "__rxor__", "__set__", "__setitem__",
  "__sizeof__", "__str__", "__sub__", "__truediv__", "__trunc__",
  "__unicode__", "__xor__", "__import__",
  "abs", "all", "any", "ascii", "bin", "bool", "bytearray", "bytes",
  "callable", "chr", "classmethod", "compile", "complex", "delattr",
  "dict", "dir", "divmod", "enumerate", "eval", "exec", "filter",
  "float", "format", "frozenset", "getattr", "globals", "hasattr", "hash",
  "help", "hex", "id", "input", "int", "isinstance", "issubclass", "iter",
  "len", "list", "locals", "map", "max", "memoryview", "min", "next",
  "object", "oct", "ord", "pow", "print", "property", "range",
  "repr", "reversed", "round", "set", "setattr", "slice", "sorted",
  "staticmethod", "str", "sum", "super", "tuple", "type", "vars", "self",
  "zip",
  "add", "get", "join", "startswith", "endswith", "strip",
  "find", "format", "index", "lstrip", "rstrip", "replace", "sub",
  "pop", "popitem", "values", "update", "copy", "clear",
  "iter", "items", "keys", "append", "appendleft", "ValueError",
  "SystemExit", "StopIteration", "KeyError", "RuntimeError"]


/-- `ignorable_name` from file_parser.py.  The argument is optional because
`visit_Call` applies it to `thing.arg`, which is `None` for a `**kwargs`
keyword; `len(None)` then raises a `TypeError`. -/
def ignorable_name : Option String → Except PyErr Bool
  | none => .error (.typeError "object of type NoneType has no len")
  | some s => .ok (decide (s.length < min_name_len) || ignorable_names.contains s)


/-- `ignorable_string` from file_parser.py. -/
def ignorable_string (s : String) : Bool := decide (s.length < min_string_len)


/-! The `NameVisitor` helper class: it accumulates a deque of name parts via
`appendleft` (modelled by `List.cons`) and joins them with dots. -/
/-- The `name` property of `NameVisitor`: `'.'.join(self._name)`. -/
def nvName (dq : List String) : String := String.intercalate "." dq

mutual

/-- `NameVisitor.visit`: dispatches to `visit_Name`, `visit_Attribute` and
`visit_Call`; all other node kinds fall through to `generic_visit`, which
visits the children. -/
def nvVisit (dq : List String) : PyExpr → List String
  | .nameE id => id :: dq
  | .numE _ => dq
  | .strE _ => dq
  | .tupleE elts => nvVisitList dq elts
  | .listE elts => nvVisitList dq elts
  | .attrE value a =>
    -- visit_Attribute: appendleft the attribute; `node.value.id` raises
    -- AttributeError unless the value is a Name, and the handler then
    -- falls back to generic_visit on the node, i.e. visits the value.
    let dq1 := a :: dq
    match value with
    | .nameE id => if id = "self" then dq1 else id :: dq1
    | _ => nvVisit dq1 value
  | .callE func _ _ =>
    -- visit_Call: only Attribute nodes have `attr` and `value` fields and
    -- only Name nodes have an `id` field.
    match func with
    | .attrE fv fattr =>
      let dq1 := fattr :: dq
      match fv with
      | .nameE id => id :: dq1
      | .attrE _ a2 => a2 :: dq1
      | _ => nvGeneric dq1 fv
    | .nameE id => id :: dq
    | _ => dq

/-- `NameVisitor.generic_visit` on one node: visit every child node. -/
def nvGeneric (dq : List String) : PyExpr → List String
  | .nameE _ => dq
  | .numE _ => dq
  | .strE _ => dq
  | .tupleE elts => nvVisitList dq elts
  | .listE elts => nvVisitList dq elts
  | .attrE v _ => nvVisit dq v
  | .callE f args kws => nvKwList (nvVisitList (nvVisit dq f) args) kws

def nvVisitList (dq : List String) : PyExprList → List String
  | .nil => dq
  | .cons e rest => nvVisitList (nvVisit dq e) rest

def nvKwList (dq : List String) : PyKwList → List String
  | .nil => dq
  | .cons _ v rest => nvKwList (nvVisit dq v) rest

end

/-! The `ElementCollector` visitor itself, threaded as explicit state with
`Except` capturing uncaught Python exceptions. -/
/-- The scope path built by the repeated
`if self._current_function: ... elif self._current_class: ...` pattern. -/
def scopePath (c : Collector) (n : String) : List String :=
  (match c.current_function with
   | some f => [f]
   | none =>
     match c.current_class with
     | some cl => [cl]
     | none => []) ++ [n]


/-- The variant of the scope path used for function parameters, which prefers
the name of the function being defined (`if func_name: ... elif
self._current_class: ...`). -/
def funcArgPath (funcName : Option String) (cc : Option String) (n : String) :
    List String :=
  (match funcName with
   | some f => [f]
   | none =>
     match cc with
     | some cl => [cl]
     | none => []) ++ [n]


/-- The target loop of `visit_Assign`. -/
def assignTargets (c : Collector) : PyExprList → Except PyErr Collector
  | .nil => pure c
  | .cons t rest => do
    let nm := nvName (nvVisit [] t)
    let ign ← ignorable_name (some nm)
    let c := if ign then c
      else {c with variables_ :=
        c.variables_ ++ [String.intercalate "|" (scopePath c nm)]}
    assignTargets c rest


/-- The parameter loop of `visit_FunctionDef` over `node.args.args`. -/
def funcArgs (c : Collector) (funcName : Option String) :
    List String → Except PyErr Collector
  | [] => pure c
  | a :: rest => do
    let ign ← ignorable_name (some a)
    let c := if ign then c
      else {c with variables_ :=
        c.variables_ ++ [String.intercalate "|" (funcArgPath funcName c.current_class a)]}
    funcArgs c funcName rest

mutual

/-- `ElementCollector.visit` on a statement, with the bodies of
`visit_FunctionDef` and `visit_ClassDef` written inline in their arms.
`visit_For` reproduces the source faithfully: a Name target is recorded
unconditionally, a Tuple target is destructured by `iterate_tuples`, and any
other target shape evaluates the undefined name `sinstance`, raising a
`NameError`. -/
def visitStmt (c : Collector) : PyStmt → Except PyErr Collector
  | .exprStmt value => visitExpr c value
  | .assign targets value => do
    let c ← assignTargets c targets
    visitExpr c value
  | .forStmt target _iter _body _orelse =>
    match target with
    | .nameE id => do
      let ign ← ignorable_name (some id)
      if ign then pure c else pure {c with variables_ := c.variables_ ++ [id]}
    | .tupleE elts => iterateTuples c elts
    | _ => .error (.nameError "name sinstance is not defined")
  | .functionDef fname args defaults body => do
    -- visit_FunctionDef: register the (scope-qualified) function name.
    let ign ← ignorable_name (some fname)
    let p :=
      if ign then (none, c)
      else
        let fn := String.intercalate "." (scopePath c fname)
        (some fn, {c with functions := c.functions ++ [fn]})
    let func_name := p.1
    let c := p.2
    -- Parameters are recorded as variables, default values are visited.
    let c ← funcArgs c func_name args
    let c ← visitExprList c defaults
    -- Body processing: a leading non-empty literal string becomes a
    -- docstring and is skipped; otherwise the loop runs over the whole
    -- body, whose first iteration is unrolled here.
    match body with
    | .cons first rest =>
      match stmtValue first with
      | some (.strE s) =>
        if s = "" then do
          let c := {c with current_function := func_name}
          let c ← visitStmt c first
          let c := {c with current_function := none}
          funcBody c func_name rest
        else funcBody {c with docstrings := c.docstrings ++ [s]} func_name rest
      | _ => do
        let c := {c with current_function := func_name}
        let c ← visitStmt c first
        let c := {c with current_function := none}
        funcBody c func_name rest
    | .nil => pure c
  | .classDef cname body => do
    -- visit_ClassDef: register the (scope-qualified) class name.
    let ign ← ignorable_name (some cname)
    let p :=
      if ign then (none, c)
      else
        let cn := String.intercalate "." (scopePath c cname)
        (some cn, {c with classes := c.classes ++ [cn]})
    let class_name := p.1
    let c := p.2
    -- Body processing.  In the source the `for thing in node.body[1:]` loop
    -- sits OUTSIDE the docstring test, so whenever the first statement
    -- carries a `value` field it is skipped, whether or not it is a string
    -- literal; only when it has no `value` field does the loop run over the
    -- whole body (first iteration unrolled here).
    match body with
    | .cons first rest =>
      match stmtValue first with
      | some (.strE s) =>
        if s = "" then classBody c class_name rest
        else classBody {c with docstrings := c.docstrings ++ [s]} class_name rest
      | some _ => classBody c class_name rest
      | none => do
        let c := {c with current_class := class_name}
        let c ← visitStmt c first
        let c := {c with current_class := none}
        classBody c class_name rest
    | .nil => pure c
  | .importStmt names =>
    pure {c with imports := c.imports ++ names.map some}
  | .importFrom module names =>
    pure {c with imports := c.imports ++ names.flatMap (fun nm =>
      if nm = "*" then [module]
      else
        -- node.module is None for relative imports; those aliases are skipped
        match module with
        | some m => [some (m ++ "." ++ nm)]
        | none => [])}

/-- `iterate_tuples` from `visit_For`. -/
def iterateTuples (c : Collector) : PyExprList → Except PyErr Collector
  | .nil => pure c
  | .cons v rest => do
    let c ← match v with
      | .nameE id => do
        let ign ← ignorable_name (some id)
        pure (if ign then c else {c with variables_ := c.variables_ ++ [id]})
      | .tupleE elts => iterateTuples c elts
      | _ => visitExpr c v
    iterateTuples c rest

/-- `ElementCollector.visit` on an expression: `visit_Str`, `visit_List` and
`visit_Call` are explicit visitors; names, numbers, tuples and attributes
fall through to `generic_visit`, which visits the children. -/
def visitExpr (c : Collector) : PyExpr → Except PyErr Collector
  | .strE s =>
    pure (if ignorable_string s then c else {c with strings := c.strings ++ [s]})
  | .listE elts => visitExprList c elts
  | .tupleE elts => visitExprList c elts
  | .nameE _ => pure c
  | .numE _ => pure c
  | .attrE value _ => visitExpr c value
  | .callE func args keywords => do
    let nm := nvName (nvVisit [] func)
    let ign ← ignorable_name (some nm)
    let c := if ign then c else {c with calls := c.calls ++ [nm]}
    let c ← visitExprList c args
    visitKeywords c keywords

def visitExprList (c : Collector) : PyExprList → Except PyErr Collector
  | .nil => pure c
  | .cons e rest => do
    let c ← visitExpr c e
    visitExprList c rest

/-- The keyword loop of `visit_Call`: `thing.arg` is `None` for `**kwargs`
arguments, so `ignorable_name` raises a `TypeError` there; a surviving
keyword name is appended to `functions` joined with dots. -/
def visitKeywords (c : Collector) : PyKwList → Except PyErr Collector
  | .nil => pure c
  | .cons argName value rest => do
    let ign ← ignorable_name argName
    let c := if ign then c
      else
        match argName with
        | some nm =>
          {c with functions :=
            c.functions ++ [String.intercalate "." (scopePath c nm)]}
        | none => c  -- unreachable: ignorable_name has already raised on None
    let c ← visitExpr c value
    visitKeywords c rest

/-- The body loop of `visit_FunctionDef`: `_current_function` is set before
each statement and reset to `None` after it. -/
def funcBody (c : Collector) (funcName : Option String) :
    PyStmtList → Except PyErr Collector
  | .nil => pure c
  | .cons s rest => do
    let c := {c with current_function := funcName}
    let c ← visitStmt c s
    let c := {c with current_function := none}
    funcBody c funcName rest

/-- The body loop of `visit_ClassDef`: `_current_class` is set before each
statement and reset to `None` after it. -/
def classBody (c : Collector) (cname : Option String) :
    PyStmtList → Except PyErr Collector
  | .nil => pure c
  | .cons s rest => do
    let c := {c with current_class := cname}
    let c ← visitStmt c s
    let c := {c with current_class := none}
    classBody c cname rest

end

/-- Visiting a whole parsed module: `collector.visit(tree)` dispatches to
`generic_visit`, which visits every top-level statement. -/
def visitModule (c : Collector) : PyStmtList → Except PyErr Collector
  | .nil => pure c
  | .cons s rest => do
    let c ← visitStmt c s
    visitModule c rest


/-- Running a fresh `ElementCollector` over a parsed file. -/
def file_collect (stmts : PyStmtList) : Except PyErr Collector :=
  visitModule initCollector stmts


/-! ### Counting and the per-file result dictionary from file_parser.py -/
/-- One increment of a Python dict-based counter: the first entry with the
given key is bumped, a missing key is appended at the end with count 1.  This
models both `collections.Counter` ingestion and `defaultdict(int)` updates,
whose iteration order is key-insertion order. -/
def bump {α : Type} [DecidableEq α] : List (α × Nat) → α → List (α × Nat)
  | [], a => [(a, 1)]
  | (k, v) :: rest, a =>
    if k = a then (k, v + 1) :: rest else (k, v) :: bump rest a


/-- Counting all elements of a list, in first-encounter order. -/
def tally {α : Type} [DecidableEq α] (xs : List α) : List (α × Nat) :=
  xs.foldl bump []


/-- The comparison used by `sorted(..., key=operator.itemgetter(1),
reverse=True)` and by `Counter.most_common()`: descending by count.  Python's
sort is stable, so ties keep their original (insertion) order; this is
modelled by `List.mergeSort`, which is also stable. -/
def countGe {α : Type} (a b : α × Nat) : Bool := decide (b.2 ≤ a.2)


/-- The total count a key receives in a counter list. -/
def countsFor {α : Type} [DecidableEq α] (ns : List (α × Nat)) (a : α) : Nat :=
  (ns.map (fun p => if p.1 = a then p.2 else 0)).sum


/-- `countify` from file_parser.py: `Counter(seq).most_common()`. -/
def countify {α : Type} [DecidableEq α] (xs : List α) : List (α × Nat) :=
  (tally xs).mergeSort countGe


/-- `x[x.rfind('|')+1:]`: the part of the string after the last `|`, or the
whole string when there is none. -/
def afterLastBar (s : String) : String :=
  ⟨(s.toList.reverse.takeWhile (fun c => c ≠ '|')).reverse⟩


/-- `filter_variables` from file_parser.py.  Despite its name and second
argument, the source checks call names against `_ignorable_names`, not
against the variable list, which is ignored. -/
def filter_variables (calls : List String) (_vars : List String) : List String :=
  calls.filter (fun call => !(ignorable_names.any (fun name => call.endsWith name)))


/-- The per-file result dictionary built by `file_elements`. -/
structure Elements : Type where
  header : String
  comments : List String
  docstrings : List String
  imports : List (Option String × Nat)
  classes : List (String × Nat)
  functions : List (String × Nat)
  variables_ : List (String × Nat)
  strings : List (String × Nat)
  calls : List (String × Nat)
  deriving DecidableEq


/-- The dictionary as initialised at the top of `file_elements`. -/
def emptyElements : Elements :=
  { header := "", comments := [], docstrings := [], imports := [],
    classes := [], functions := [], variables_ := [], strings := [], calls := [] }


/-- `file_elements` from file_parser.py, as a function of the outcomes of its
input passes.  `clean` is `clean_plain_text` from text_extractor.py (language
detection and Unicode handling make it external to this development);
`python2Failed` is true when pass 0 decided the file is Python 2 and the
2to3 conversion failed; `header` and `comments` are the products of the
token-level pass 1; `tree` is the result of `ast.parse` in pass 2, `none`
when parsing raised.  Exceptions raised by the collector itself are not
caught and escape as `Except.error`. -/
def file_elements (clean : String → String) (python2Failed : Bool)
    (header : String) (comments : List String) (tree : Option PyStmtList) :
    Except PyErr Elements :=
  if python2Failed then
    -- conversion failed: "At this point, we still have an empty elements
    -- dictionary."
    .ok emptyElements
  else
    -- Pass 1: store the header and comments.
    let elements1 := { emptyElements with
      header := clean header,
      comments := comments.map clean }
    match tree with
    | none =>
      -- "AST parsing failed; returning what we have so far"
      .ok elements1
    | some stmts => do
      let collector ← file_collect stmts
      let unique_var_paths := collector.variables_.dedup
      let vars := unique_var_paths.map afterLastBar
      let filtered_calls := filter_variables collector.calls vars
      .ok { elements1 with
        docstrings := collector.docstrings.map clean,
        imports := countify collector.imports,
        classes := countify collector.classes,
        functions := countify collector.functions,
        variables_ := countify vars,
        strings := countify (collector.strings.map clean),
        calls := countify filtered_calls }


/-! ### Aggregation from gather_name_stats.py -/
/-- The five counted collections of a per-file element record, as consumed by
`unique_names_recursive` (`value[0] for value in body[...]`). -/
structure FileBody : Type where
  calls : List (String × Nat)
  functions : List (String × Nat)
  classes : List (String × Nat)
  variables_ : List (String × Nat)
  imports : List (String × Nat)

mutual

/-- One record of the directory tree produced by the extractor: either a
directory with a body of child records, or a file with a code language and a
per-file element body. -/
inductive RItem : Type where
  | dir (body : RItemList)
  | file (code_language : Option String) (body : FileBody)

inductive RItemList : Type where
  | nil
  | cons (head : RItem) (tail : RItemList)

end

mutual

/-- `unique_names_recursive` from gather_name_stats.py: only a record of type
`dir` yields names; its Python files contribute the first components of their
calls, functions, classes, variables and imports, and its subdirectories are
processed recursively. -/
def unique_names_recursive : RItem → List String
  | .file _ _ => []
  | .dir body => unrItems body

/-- The `for item in elements['body']` loop of `unique_names_recursive`. -/
def unrItems : RItemList → List String
  | .nil => []
  | .cons item rest =>
    (match item with
     | .dir _ => unique_names_recursive item
     | .file lang fb =>
       if lang = some "Python" then
         fb.calls.map Prod.fst ++ fb.functions.map Prod.fst ++
         fb.classes.map Prod.fst ++ fb.variables_.map Prod.fst ++
         fb.imports.map Prod.fst
       else []) ++ unrItems rest

end

/-- `unique_names` from gather_name_stats.py: `list(set(results))`, modelled
deterministically as deduplication keeping first occurrences. -/
def unique_names (e : RItem) : List String :=
  (unique_names_recursive e).dedup


/-- One entry of the `elements_list` argument of `name_frequencies`. -/
structure RepoElements : Type where
  elements : RItem
  full_path : String


/-- `simple_split` on Lean strings. -/
def simple_split_s (s : String) : List String :=
  (simple_split s.toList).map (fun l => ⟨l⟩)


/-- `name.encode('utf8').decode('ascii', 'ignore')`: every non-ASCII character
is dropped (each non-ASCII character encodes to bytes ≥ 128, which the ASCII
decoder ignores). -/
def asciiNormalize (s : String) : String :=
  ⟨s.toList.filter (fun c => c.toNat < 128)⟩


/-- `_min_name_length = 1` from gather_name_stats.py. -/
def min_name_length : Nat := 1


/-- `_max_name_length = 30` from gather_name_stats.py. -/
def max_name_length : Nat := 30


/-- The body of the `for elements in elements_list` loop of
`name_frequencies`: an empty name set only triggers a log warning, otherwise
every non-empty unique name is split, each component is ASCII-normalised and,
when its length is within bounds, counted. -/
def addRepo (names : List (String × Nat)) (r : RepoElements) : List (String × Nat) :=
  let names_in_repo := unique_names r.elements
  if names_in_repo.isEmpty then names
  else
    let expanded := (names_in_repo.filter (fun n => n ≠ "")).flatMap simple_split_s
    expanded.foldl (fun ns name =>
      let name' := asciiNormalize name
      if min_name_length ≤ name'.length ∧ name'.length ≤ max_name_length then
        bump ns name'
      else ns) names


/-- The `names` dictionary of `name_frequencies` after the main loop, in
key-insertion order. -/
def nameCounts (l : List RepoElements) : List (String × Nat) :=
  l.foldl addRepo []


/-- `name_frequencies` from gather_name_stats.py:
`sorted(names.items(), key=operator.itemgetter(1), reverse=True)`. -/
def name_frequencies (l : List RepoElements) : List (String × Nat) :=
  (nameCounts l).mergeSort countGe


/-- The multiset of counted component occurrences contributed by one
repository (proof-side restatement of the inner loop of `addRepo`). -/
def repoTokens (r : RepoElements) : List String :=
  ((((unique_names r.elements).filter (fun n => n ≠ "")).flatMap
      simple_split_s).map asciiNormalize).filter
    (fun n => decide (min_name_length ≤ n.length) && decide (n.length ≤ max_name_length))


/-- The invariant of the counting dictionaries. -/
def CounterInv {α : Type} (ns : List (α × Nat)) : Prop :=
  (ns.map Prod.fst).Nodup ∧ ∀ p ∈ ns, 0 < p.2

/-- The two concrete repositories used by the aggregation witnesses: one with
unique names `foo` and `bar`, one with unique names `foo` and `biff`. -/
def demoRepoA : RepoElements :=
  { elements := .dir (.cons (.file (some "Python")
      { calls := [("foo", 1)], functions := [("bar", 1)], classes := [],
        variables_ := [], imports := [] }) .nil),
    full_path := "/repos/a" }

def demoRepoB : RepoElements :=
  { elements := .dir (.cons (.file (some "Python")
      { calls := [("foo", 1)], functions := [("biff", 1)], classes := [],
        variables_ := [], imports := [] }) .nil),
    full_path := "/repos/b" }


/-! ### Theorems -/

/-! ### Basic facts about the splitters -/
theorem hasTwoAdjacentCapitals_of_get :
    ∀ (l : List Char) (i : Nat) (h : i + 1 < l.length),
      (l.get ⟨i, Nat.lt_of_succ_lt h⟩).isUpper = true →
      (l.get ⟨i + 1, h⟩).isUpper = true →
      hasTwoAdjacentCapitals l = true
  | a :: b :: rest, 0, _, h1, h2 => by
    simp only [List.get] at h1 h2
    simp [hasTwoAdjacentCapitals, h1, h2]
  | a :: b :: rest, i + 1, h, h1, h2 => by
    have hlt : i + 1 < (b :: rest).length := by
      simpa [List.length_cons, Nat.succ_lt_succ_iff] using h
    have ih := hasTwoAdjacentCapitals_of_get (b :: rest) i hlt
    simp only [List.get] at h1 h2 ih
    simp [hasTwoAdjacentCapitals, ih h1 h2]

theorem ne_nil_of_hasTwoAdjacentCapitals {l : List Char}
    (h : hasTwoAdjacentCapitals l = true) : l ≠ [] := by
  intro hnil; subst hnil; simp [hasTwoAdjacentCapitals] at h

theorem mem_splitWsAux_ne_nil :
    ∀ (l cur t : List Char), t ∈ splitWsAux l cur → t ≠ []
  | [], cur, t => by
    by_cases hc : cur.isEmpty
    · simp [splitWsAux, hc]
    · intro ht
      simp only [splitWsAux, hc, if_false, Bool.false_eq_true, List.mem_singleton] at ht
      subst ht
      simpa [List.isEmpty_iff] using hc
  | c :: rest, cur, t => by
    intro ht
    by_cases hsp : isPySpace c
    · by_cases hc : cur.isEmpty
      · simp only [splitWsAux, hsp, hc, if_true] at ht
        exact mem_splitWsAux_ne_nil rest [] t ht
      · simp only [splitWsAux, hsp, hc, if_true, Bool.false_eq_true, if_false,
          List.mem_cons] at ht
        rcases ht with rfl | ht
        · simpa [List.isEmpty_iff] using hc
        · exact mem_splitWsAux_ne_nil rest [] t ht
    · simp only [splitWsAux, hsp, Bool.false_eq_true, if_false] at ht
      exact mem_splitWsAux_ne_nil rest (c :: cur) t ht

theorem mem_pySplitWs_ne_nil {l t : List Char} (h : t ∈ pySplitWs l) : t ≠ [] :=
  mem_splitWsAux_ne_nil l [] t h


/-! ### Claims C1, C2, C3, C10 about the splitters -/
/-- C1 counterexample: `FooBar` contains two (non-adjacent) uppercase letters,
yet `safe_camelcase_split` does split it, contradicting the claim that any
identifier with two or more uppercase letters anywhere is returned unsplit. -/
theorem C1_counterexample :
    2 ≤ (("FooBar".toList).filter Char.isUpper).length ∧
    safe_camelcase_split "FooBar".toList ≠ ["FooBar".toList] := by decide


/-- C1 (amended): if an identifier contains two ADJACENT uppercase letters,
at positions `i` and `i+1` for some `i`, then `safe_camelcase_split` returns
the one-element list containing the identifier unchanged. -/
theorem C1_amended (l : List Char) (i : Nat) (h : i + 1 < l.length)
    (h1 : (l.get ⟨i, Nat.lt_of_succ_lt h⟩).isUpper = true)
    (h2 : (l.get ⟨i + 1, h⟩).isUpper = true) :
    safe_camelcase_split l = [l] := by
  unfold safe_camelcase_split
  rw [hasTwoAdjacentCapitals_of_get l i h h1 h2]
  simp


/-- C1 witness: `aFastNDecoder` has adjacent capitals at positions 5 and 6,
and is indeed returned unsplit. -/
theorem C1_witness :
    safe_camelcase_split "aFastNDecoder".toList = ["aFastNDecoder".toList] :=
  C1_amended "aFastNDecoder".toList 5 (by decide) (by decide) (by decide)


/-- C2: the three concrete splitter examples given in the specification hold
on the code. -/
theorem C2_examples :
    safe_camelcase_split "fooBarBaz".toList =
      ["foo".toList, "Bar".toList, "Baz".toList] ∧
    safe_camelcase_split "aFastNDecoder".toList = ["aFastNDecoder".toList] ∧
    simple_split "aFastNDecoder".toList =
      ["a".toList, "Fast".toList, "NDecoder".toList] := by decide


/-- C3 counterexample: the hard-delimiter set `$~_.:/` contains no digit, so
splitting `foo_bar2baz` does not separate `bar` from `baz`; the claimed result
`["foo","bar","baz"]` is wrong. -/
theorem C3_counterexample :
    simple_split "foo_bar2baz".toList ≠
      ["foo".toList, "bar".toList, "baz".toList] := by decide


/-- C3 (amended): digits are not hard-delimiter characters (the set is
`$ ~ _ . : /`), so `foo_bar2baz` splits only at the underscore, yielding
`["foo","bar2baz"]`; a digit participates in splitting only through the
camel-case rule, before a following uppercase letter, as in
`foo2Bar → ["foo2","Bar"]`. -/
theorem C3_amended_no_digit_delimiters :
    hardSplitChars.all (fun c => !c.isDigit) = true ∧
    simple_split "foo_bar2baz".toList = ["foo".toList, "bar2baz".toList] ∧
    simple_split "foo2Bar".toList = ["foo2".toList, "Bar".toList] := by decide


/-- C10: every token returned by each of the four identifier splitters is a
non-empty string. -/
theorem C10_tokens_nonempty (l t : List Char) :
    (t ∈ delimiter_split l → t ≠ []) ∧
    (t ∈ naive_camelcase_split l → t ≠ []) ∧
    (t ∈ safe_camelcase_split l → t ≠ []) ∧
    (t ∈ simple_split l → t ≠ []) := by
  refine ⟨?_, ?_, ?_, ?_⟩
  · intro ht
    have := List.of_mem_filter ht
    simpa [List.isEmpty_iff] using this
  · exact fun ht => mem_pySplitWs_ne_nil ht
  · intro ht
    unfold safe_camelcase_split at ht
    by_cases hcap : hasTwoAdjacentCapitals l
    · rw [hcap] at ht
      simp only [if_true, List.mem_singleton] at ht
      subst ht
      exact ne_nil_of_hasTwoAdjacentCapitals hcap
    · simp only [hcap, Bool.false_eq_true, if_false] at ht
      exact mem_pySplitWs_ne_nil ht
  · intro ht
    unfold simple_split at ht
    simp only [List.mem_flatten, List.mem_map] at ht
    obtain ⟨_, ⟨tok, _, rfl⟩, hmem⟩ := ht
    exact mem_pySplitWs_ne_nil hmem


/-- C10 witness: `delimiter_split "foo_bar"` contains the token `foo`, and the
theorem instantiated there yields its non-emptiness. -/
theorem C10_witness :
    "foo".toList ∈ delimiter_split "foo_bar".toList ∧ "foo".toList ≠ ([] : List Char) :=
  ⟨by decide, (C10_tokens_nonempty "foo_bar".toList "foo".toList).1 (by decide)⟩


theorem nontextMatch_iff (l : List Char) :
    nontextMatch l = true ↔ l ≠ [] ∧ ∀ c ∈ l, ¬ c.isAlpha = true := by
  simp [nontextMatch, List.isEmpty_iff, List.all_eq_true]


/-- C9 counterexample: on the two-character line `ab` the claimed predicate is
true (stripped length 2 < 4) while `ignorable_comment` is false (the line is
not a `#` comment); on `  #ab` the claimed predicate is again true (stripped
length 3 < 4) while `ignorable_comment` is false (the raw length 5 is not
below the threshold). -/
theorem C9_counterexample :
    (ignorable_comment_claimed "ab".toList = true ∧
      ignorable_comment "ab".toList = false) ∧
    (ignorable_comment_claimed "  #ab".toList = true ∧
      ignorable_comment "  #ab".toList = false) := by decide


/-- C9 (amended): `ignorable_comment(line)` is true exactly when the stripped
line starts with `#` and, in addition, the RAW line is shorter than 4
characters, or the line is non-empty and contains no alphabetic character, or
the raw line matches the encoding-declaration, vim-modeline, emacs-modeline or
shebang pattern. -/
theorem C9_amended (l : List Char) :
    ignorable_comment l = true ↔
      "#".toList.isPrefixOf (pyStrip l) = true ∧
      (l.length < min_comment_len ∨ (l ≠ [] ∧ ∀ c ∈ l, ¬ c.isAlpha = true) ∨
        codingMatch l = true ∨ vimMatch l = true ∨ emacsMatch l = true ∨
        hashbangMatch l = true) := by
  rw [← nontextMatch_iff]
  simp [ignorable_comment, Bool.or_eq_true, Bool.and_eq_true, decide_eq_true_iff]
  tauto


/-! ### Claims C4, C5, C8 about the element collector -/
/-- C4: two syntactically valid files on which the tree visitor raises an
uncaught exception that escapes `file_elements`, instead of logging and
skipping the subtree.  A for loop with a list target reaches the misspelt
`sinstance` test in `visit_For` and raises a `NameError`; a call with a
`**kwargs` keyword makes `visit_Call` apply `ignorable_name` to `None`,
raising a `TypeError` from `len(None)`. -/
theorem C4_visitor_errors_escape :
    file_elements id false "" [] (some (.cons (PyStmt.forStmt
        (PyExpr.listE (.cons (PyExpr.nameE "aa") (.cons (PyExpr.nameE "bb") .nil)))
        (PyExpr.nameE "pairs") .nil .nil) .nil)) =
      .error (.nameError "name sinstance is not defined") ∧
    file_elements id false "" [] (some (.cons (PyStmt.exprStmt
        (PyExpr.callE (PyExpr.nameE "process") .nil
          (.cons none (PyExpr.nameE "dd") .nil))) .nil)) =
      .error (.typeError "object of type NoneType has no len") :=
  ⟨rfl, rfl⟩


/-- C5: when AST parsing fails after the token-level pass succeeded,
`file_elements` returns the dictionary whose header and comments are the
(cleaned) products of the token-level pass and whose docstrings, imports,
classes, functions, variables, strings and calls are all empty. -/
theorem C5_lexical_independent_of_structural
    (clean : String → String) (header : String) (comments : List String) :
    file_elements clean false header comments none =
      .ok { header := clean header, comments := comments.map clean,
            docstrings := [], imports := [], classes := [], functions := [],
            variables_ := [], strings := [], calls := [] } := rfl


/-- C8 counterexample: in `class Widget: xyz = 1; abc = 2` the leading
assignment `xyz = 1` is not a string literal, yet the collector skips it —
only `abc` is recorded as a variable — contradicting the claim that a leading
non-string first statement is traversed like the rest of the body. -/
theorem C8_counterexample :
    (file_collect (.cons (PyStmt.classDef "Widget"
        (.cons (PyStmt.assign (.cons (PyExpr.nameE "xyz") .nil) (PyExpr.numE 1))
        (.cons (PyStmt.assign (.cons (PyExpr.nameE "abc") .nil) (PyExpr.numE 2))
          .nil))) .nil)).map Collector.variables_ = .ok ["Widget|abc"] ∧
    "Widget|xyz" ∉ ["Widget|abc"] :=
  ⟨rfl, by decide⟩


/-- C8 (amended): the docstring test examines the `value` field of the first
body statement.  For a FUNCTION definition, a leading expression statement
holding a non-empty string literal is skipped and appended to docstrings (1),
while a leading assignment whose value is not a string literal (2), or any
leading statement without a `value` field (6), is traversed like the rest of
the body.  For a CLASS definition, a leading non-empty string-literal
expression statement is skipped and appended to docstrings (4), but a leading
assignment is skipped even though it is not a string literal (3); only a
leading statement without a `value` field is traversed (5). -/
theorem C8_amended (c : Collector) (fname cname s : String) (tgts : PyExprList)
    (v : PyExpr) (first : PyStmt) (rest : PyStmtList) :
    (ignorable_name (some fname) = .ok false → s ≠ "" →
      visitStmt c (.functionDef fname [] .nil (.cons (.exprStmt (.strE s)) rest)) =
        funcBody
          { c with
            functions := c.functions ++ [String.intercalate "." (scopePath c fname)],
            docstrings := c.docstrings ++ [s] }
          (some (String.intercalate "." (scopePath c fname))) rest) ∧
    (ignorable_name (some fname) = .ok false → (∀ s', v ≠ .strE s') →
      visitStmt c (.functionDef fname [] .nil (.cons (.assign tgts v) rest)) =
        funcBody
          { c with
            functions := c.functions ++ [String.intercalate "." (scopePath c fname)] }
          (some (String.intercalate "." (scopePath c fname)))
          (.cons (.assign tgts v) rest)) ∧
    (ignorable_name (some cname) = .ok false → (∀ s', v ≠ .strE s') →
      visitStmt c (.classDef cname (.cons (.assign tgts v) rest)) =
        classBody
          { c with
            classes := c.classes ++ [String.intercalate "." (scopePath c cname)] }
          (some (String.intercalate "." (scopePath c cname))) rest) ∧
    (ignorable_name (some cname) = .ok false → s ≠ "" →
      visitStmt c (.classDef cname (.cons (.exprStmt (.strE s)) rest)) =
        classBody
          { c with
            classes := c.classes ++ [String.intercalate "." (scopePath c cname)],
            docstrings := c.docstrings ++ [s] }
          (some (String.intercalate "." (scopePath c cname))) rest) ∧
    (ignorable_name (some cname) = .ok false → stmtValue first = none →
      visitStmt c (.classDef cname (.cons first rest)) =
        classBody
          { c with
            classes := c.classes ++ [String.intercalate "." (scopePath c cname)] }
          (some (String.intercalate "." (scopePath c cname))) (.cons first rest)) ∧
    (ignorable_name (some fname) = .ok false → stmtValue first = none →
      visitStmt c (.functionDef fname [] .nil (.cons first rest)) =
        funcBody
          { c with
            functions := c.functions ++ [String.intercalate "." (scopePath c fname)] }
          (some (String.intercalate "." (scopePath c fname))) (.cons first rest)) := by
  refine ⟨?_, ?_, ?_, ?_, ?_, ?_⟩
  · intro hfn hs
    simp [visitStmt, hfn, hs, funcArgs, visitExprList, stmtValue, funcBody,
      Bind.bind, Except.bind, Pure.pure, Except.pure]
  · intro hfn hv
    cases v with
    | strE s' => exact absurd rfl (hv s')
    | _ =>
      simp [visitStmt, hfn, funcArgs, visitExprList, stmtValue, funcBody,
        Bind.bind, Except.bind, Pure.pure, Except.pure]
  · intro hcn hv
    cases v with
    | strE s' => exact absurd rfl (hv s')
    | _ =>
      simp [visitStmt, hcn, stmtValue, classBody,
        Bind.bind, Except.bind, Pure.pure, Except.pure]
  · intro hcn hs
    simp [visitStmt, hcn, hs, stmtValue, classBody,
      Bind.bind, Except.bind, Pure.pure, Except.pure]
  · intro hcn hfirst
    cases first <;> simp_all [visitStmt, stmtValue, classBody,
      Bind.bind, Except.bind, Pure.pure, Except.pure]
  · intro hfn hfirst
    cases first <;> simp_all [visitStmt, stmtValue, funcArgs, visitExprList, funcBody,
      Bind.bind, Except.bind, Pure.pure, Except.pure]


/-- C8 witness: conjunct (3) of the amended claim instantiated on
`class Widget: xyz = 1`, showing the leading assignment is skipped. -/
theorem C8_witness :
    visitStmt initCollector (.classDef "Widget"
        (.cons (.assign (.cons (PyExpr.nameE "xyz") .nil) (PyExpr.numE 1)) .nil)) =
      classBody { initCollector with classes := ["Widget"] } (some "Widget") .nil :=
  (C8_amended initCollector "f" "Widget" "" (.cons (PyExpr.nameE "xyz") .nil)
      (PyExpr.numE 1) (PyStmt.importStmt []) .nil).2.2.1 rfl
    (fun _ h => PyExpr.noConfusion h)


/-! ### Counter lemmas for the aggregation claims C6 and C7 -/
theorem countsFor_nil {α : Type} [DecidableEq α] (a : α) :
    countsFor ([] : List (α × Nat)) a = 0 := rfl

theorem countsFor_cons {α : Type} [DecidableEq α] (k : α) (v : Nat)
    (rest : List (α × Nat)) (a : α) :
    countsFor ((k, v) :: rest) a = (if k = a then v else 0) + countsFor rest a := by
  simp [countsFor]

theorem countsFor_bump {α : Type} [DecidableEq α] (ns : List (α × Nat)) (t a : α) :
    countsFor (bump ns t) a = countsFor ns a + (if t = a then 1 else 0) := by
  induction ns with
  | nil =>
    by_cases h : t = a <;> simp [bump, countsFor, h]
  | cons p rest ih =>
    obtain ⟨k, v⟩ := p
    by_cases hk : k = t
    · subst hk
      have hb : bump ((k, v) :: rest) k = (k, v + 1) :: rest := by simp [bump]
      rw [hb, countsFor_cons, countsFor_cons]
      by_cases ha : k = a <;> (simp [ha]; try omega)
    · have hb : bump ((k, v) :: rest) t = (k, v) :: bump rest t := by simp [bump, hk]
      rw [hb, countsFor_cons, countsFor_cons, ih]
      omega


/-- The inner counting loop of `addRepo`, related to the filtered token
multiset. -/
theorem countsFor_tokenFold (xs : List String) (ns : List (String × Nat)) (a : String) :
    countsFor (xs.foldl (fun ns name =>
        let name' := asciiNormalize name
        if min_name_length ≤ name'.length ∧ name'.length ≤ max_name_length then
          bump ns name'
        else ns) ns) a =
      countsFor ns a +
        ((xs.map asciiNormalize).filter
          (fun n => decide (min_name_length ≤ n.length) &&
            decide (n.length ≤ max_name_length))).count a := by
  induction xs generalizing ns with
  | nil => simp
  | cons x xs ih =>
    simp only [List.foldl_cons, List.map_cons, List.filter_cons]
    by_cases hx : min_name_length ≤ (asciiNormalize x).length ∧
        (asciiNormalize x).length ≤ max_name_length
    · rw [if_pos hx, ih, countsFor_bump]
      have hxb : (decide (min_name_length ≤ (asciiNormalize x).length) &&
          decide ((asciiNormalize x).length ≤ max_name_length)) = true := by
        simp [hx.1, hx.2]
      rw [hxb]
      simp only [if_true, List.count_cons]
      by_cases hax : asciiNormalize x = a
      · simp [hax]; omega
      · have : ¬ (a == asciiNormalize x) = true := by
          simp [beq_iff_eq]; exact fun h => hax h.symm
        simp [hax, this]
    · rw [if_neg hx, ih]
      have hxb : (decide (min_name_length ≤ (asciiNormalize x).length) &&
          decide ((asciiNormalize x).length ≤ max_name_length)) = false := by
        rcases Decidable.not_and_iff_or_not.mp hx with h | h <;> simp [h]
      rw [hxb]
      simp

theorem countsFor_addRepo (ns : List (String × Nat)) (r : RepoElements) (a : String) :
    countsFor (addRepo ns r) a = countsFor ns a + (repoTokens r).count a := by
  by_cases h : (unique_names r.elements).isEmpty
  · have h0 : unique_names r.elements = [] := List.isEmpty_iff.mp h
    simp [addRepo, repoTokens, h0]
  · have h' : (unique_names r.elements).isEmpty = false := by simpa using h
    simp only [addRepo, repoTokens, h', Bool.false_eq_true, if_false]
    exact countsFor_tokenFold _ ns a

theorem countsFor_foldl_addRepo (l : List RepoElements) (ns : List (String × Nat))
    (a : String) :
    countsFor (l.foldl addRepo ns) a =
      countsFor ns a + (l.map (fun r => (repoTokens r).count a)).sum := by
  induction l generalizing ns with
  | nil => simp
  | cons r l ih =>
    simp only [List.foldl_cons, List.map_cons, List.sum_cons]
    rw [ih, countsFor_addRepo]
    omega


/-! Keys of a counter list: `bump` either updates an existing key in place or
appends the new key at the end, so keys stay distinct and counts positive. -/
theorem keys_bump {α : Type} [DecidableEq α] (ns : List (α × Nat)) (t : α) :
    (bump ns t).map Prod.fst =
      if t ∈ ns.map Prod.fst then ns.map Prod.fst else ns.map Prod.fst ++ [t] := by
  induction ns with
  | nil => simp [bump]
  | cons p rest ih =>
    obtain ⟨k, v⟩ := p
    by_cases hk : k = t
    · subst hk; simp [bump]
    · have hkt : ¬ t = k := fun h => hk h.symm
      by_cases hmem : t ∈ rest.map Prod.fst <;>
        simp [bump, hk, hkt, hmem, ih]

theorem nodupKeys_bump {α : Type} [DecidableEq α] (ns : List (α × Nat)) (t : α)
    (h : (ns.map Prod.fst).Nodup) : ((bump ns t).map Prod.fst).Nodup := by
  rw [keys_bump]
  by_cases hmem : t ∈ ns.map Prod.fst
  · simpa [hmem] using h
  · simpa [hmem, List.nodup_append] using h

theorem pos_bump {α : Type} [DecidableEq α] (ns : List (α × Nat)) (t : α)
    (h : ∀ p ∈ ns, 0 < p.2) : ∀ p ∈ bump ns t, 0 < p.2 := by
  induction ns with
  | nil =>
    intro p hp
    simp only [bump, List.mem_singleton] at hp
    subst hp; exact Nat.zero_lt_one
  | cons q rest ih =>
    obtain ⟨k, v⟩ := q
    intro p hp
    by_cases hk : k = t
    · subst hk
      simp only [bump, if_true] at hp
      rcases List.mem_cons.mp hp with rfl | hp
      · exact Nat.succ_pos v
      · exact h p (List.mem_cons_of_mem _ hp)
    · simp only [bump, hk, if_false] at hp
      rcases List.mem_cons.mp hp with rfl | hp
      · exact h (k, v) (List.mem_cons_self _ _)
      · exact ih (fun q hq => h q (List.mem_cons_of_mem _ hq)) p hp


theorem counterInv_nil {α : Type} : CounterInv ([] : List (α × Nat)) :=
  ⟨List.nodup_nil, by intro p hp; cases hp⟩

theorem counterInv_bump {α : Type} [DecidableEq α] {ns : List (α × Nat)} (t : α)
    (h : CounterInv ns) : CounterInv (bump ns t) :=
  ⟨nodupKeys_bump ns t h.1, pos_bump ns t h.2⟩

theorem counterInv_tokenFold (xs : List String) {ns : List (String × Nat)}
    (h : CounterInv ns) :
    CounterInv (xs.foldl (fun ns name =>
      let name' := asciiNormalize name
      if min_name_length ≤ name'.length ∧ name'.length ≤ max_name_length then
        bump ns name'
      else ns) ns) := by
  induction xs generalizing ns with
  | nil => exact h
  | cons x xs ih =>
    simp only [List.foldl_cons]
    by_cases hx : min_name_length ≤ (asciiNormalize x).length ∧
        (asciiNormalize x).length ≤ max_name_length
    · exact ih (by simpa [hx] using counterInv_bump (asciiNormalize x) h)
    · simpa [hx] using ih h

theorem counterInv_addRepo {ns : List (String × Nat)} (r : RepoElements)
    (h : CounterInv ns) : CounterInv (addRepo ns r) := by
  by_cases he : (unique_names r.elements).isEmpty
  · simpa [addRepo, he] using h
  · have he' : (unique_names r.elements).isEmpty = false := by simpa using he
    simp only [addRepo, he', Bool.false_eq_true, if_false]
    exact counterInv_tokenFold _ h

theorem counterInv_nameCounts (l : List RepoElements) : CounterInv (nameCounts l) := by
  unfold nameCounts
  suffices h : ∀ ns, CounterInv ns → CounterInv (l.foldl addRepo ns) from
    h [] counterInv_nil
  induction l with
  | nil => intro ns h; exact h
  | cons r l ih =>
    intro ns h
    simp only [List.foldl_cons]
    exact ih _ (counterInv_addRepo r h)


/-- In a counter list with distinct keys and positive counts, membership of a
pair is determined by the count function. -/
theorem mem_counter_iff {α : Type} [DecidableEq α] {ns : List (α × Nat)}
    (h : CounterInv ns) (p : α × Nat) :
    p ∈ ns ↔ (countsFor ns p.1 = p.2 ∧ 0 < p.2) := by
  obtain ⟨p1, p2⟩ := p
  obtain ⟨hnodup, hpos⟩ := h
  induction ns with
  | nil =>
    simp only [List.not_mem_nil, countsFor_nil, false_iff, not_and]
    intro h0
    omega
  | cons q rest ih =>
    obtain ⟨k, v⟩ := q
    simp only [List.map_cons, List.nodup_cons] at hnodup
    obtain ⟨hknotin, hrestnodup⟩ := hnodup
    have hvpos : 0 < v := hpos (k, v) (List.mem_cons_self _ _)
    have hrestpos : ∀ q ∈ rest, 0 < q.2 :=
      fun q hq => hpos q (List.mem_cons_of_mem _ hq)
    have ihr := ih hrestnodup hrestpos
    simp only at ihr ⊢
    rw [countsFor_cons]
    by_cases hk : k = p1
    · subst hk
      have hzero : countsFor rest k = 0 := by
        unfold countsFor
        apply List.sum_eq_zero
        intro x hx
        rcases List.mem_map.mp hx with ⟨q, hq, rfl⟩
        have hne : ¬ q.1 = k := fun hq1 =>
          hknotin (hq1 ▸ List.mem_map_of_mem Prod.fst hq)
        simp [hne]
      rw [hzero, if_pos rfl, Nat.add_zero]
      constructor
      · intro hp
        rcases List.mem_cons.mp hp with heq | hp
        · have h2 : p2 = v := congrArg Prod.snd heq
          exact ⟨h2.symm, h2 ▸ hvpos⟩
        · exact absurd (List.mem_map_of_mem Prod.fst hp) hknotin
      · rintro ⟨hv, -⟩
        exact List.mem_cons.mpr (Or.inl (congrArg (Prod.mk k) hv.symm))
    · rw [if_neg hk, Nat.zero_add]
      constructor
      · intro hp
        rcases List.mem_cons.mp hp with heq | hp
        · exact absurd (congrArg Prod.fst heq).symm hk
        · exact ihr.mp hp
      · intro hcp
        exact List.mem_cons.mpr (Or.inr (ihr.mpr hcp))


/-! ### Claims C6 and C7 about `name_frequencies` -/
/-- C6: permuting the input repository list leaves every component's final
count unchanged, and the final frequency table holds exactly the same set of
(component, count) pairs; only presentation order of ties can differ. -/
theorem C6_permutation_invariant (l₁ l₂ : List RepoElements) (h : l₁.Perm l₂) :
    (∀ a : String, countsFor (nameCounts l₁) a = countsFor (nameCounts l₂) a) ∧
    (∀ p : String × Nat, p ∈ name_frequencies l₁ ↔ p ∈ name_frequencies l₂) := by
  have hcounts : ∀ a : String,
      countsFor (nameCounts l₁) a = countsFor (nameCounts l₂) a := by
    intro a
    unfold nameCounts
    rw [countsFor_foldl_addRepo, countsFor_foldl_addRepo]
    exact congrArg _ ((h.map (fun r => (repoTokens r).count a)).sum_eq)
  refine ⟨hcounts, ?_⟩
  intro p
  have hm₁ : p ∈ name_frequencies l₁ ↔ p ∈ nameCounts l₁ :=
    (List.mergeSort_perm (nameCounts l₁) countGe).mem_iff
  have hm₂ : p ∈ name_frequencies l₂ ↔ p ∈ nameCounts l₂ :=
    (List.mergeSort_perm (nameCounts l₂) countGe).mem_iff
  rw [hm₁, hm₂, mem_counter_iff (counterInv_nameCounts l₁),
    mem_counter_iff (counterInv_nameCounts l₂), hcounts p.1]

theorem countGe_trans (a b c : String × Nat) :
    countGe a b = true → countGe b c = true → countGe a c = true := by
  simp only [countGe, decide_eq_true_iff]
  omega

theorem countGe_total (a b : String × Nat) : (countGe a b || countGe b a) = true := by
  simp only [countGe, Bool.or_eq_true, decide_eq_true_iff]
  omega


/-- C7: the frequency table is sorted by weakly descending count, and two
distinct entries with equal counts appear in the same relative order as in
the insertion-ordered counting dictionary (first-seen order) — the sort is
stable, never alphabetical. -/
theorem C7_sorted_descending_stable (l : List RepoElements) :
    List.Sorted (fun a b : String × Nat => b.2 ≤ a.2) (name_frequencies l) ∧
    (∀ x y : String × Nat, x.2 = y.2 →
      List.Sublist [x, y] (nameCounts l) →
      List.Sublist [x, y] (name_frequencies l)) := by
  constructor
  · have hs := List.sorted_mergeSort countGe_trans countGe_total (nameCounts l)
    exact hs.imp (fun hab => by
      simpa [countGe, decide_eq_true_iff] using hab)
  · intro x y hxy hsub
    refine List.sublist_mergeSort countGe_trans countGe_total ?_ hsub
    refine List.pairwise_cons.mpr ⟨?_, ?_⟩
    · intro b hb
      rcases List.mem_singleton.mp hb with rfl
      simp [countGe, hxy]
    · exact List.pairwise_singleton _ _


/-- C6 witness: swapping the two demo repositories changes neither the count
of `foo` nor membership of `(foo, 2)` in the final table. -/
theorem C6_witness :
    (countsFor (nameCounts [demoRepoA, demoRepoB]) "foo" =
      countsFor (nameCounts [demoRepoB, demoRepoA]) "foo") ∧
    ((("foo" : String), 2) ∈ name_frequencies [demoRepoA, demoRepoB] ↔
      (("foo" : String), 2) ∈ name_frequencies [demoRepoB, demoRepoA]) :=
  ⟨(C6_permutation_invariant [demoRepoA, demoRepoB] [demoRepoB, demoRepoA]
      (List.Perm.swap demoRepoB demoRepoA [])).1 "foo",
   (C6_permutation_invariant [demoRepoA, demoRepoB] [demoRepoB, demoRepoA]
      (List.Perm.swap demoRepoB demoRepoA [])).2 ("foo", 2)⟩


/-- C7 witness: `bar` and `biff` are tied at count 1 and first seen in this
order; the theorem instantiated on the demo repositories keeps them in that
order in the sorted table. -/
theorem C7_witness :
    ((("bar" : String), 1) : String × Nat).2 = ((("biff" : String), 1) : String × Nat).2 ∧
    List.Sublist [(("bar" : String), 1), ("biff", 1)] (nameCounts [demoRepoA, demoRepoB]) ∧
    List.Sublist [(("bar" : String), 1), ("biff", 1)]
      (name_frequencies [demoRepoA, demoRepoB]) := by
  have hsub : List.Sublist [(("bar" : String), 1), ("biff", 1)]
      (nameCounts [demoRepoA, demoRepoB]) :=
    show List.Sublist _ [("foo", 2), ("bar", 1), ("biff", 1)] from
      List.Sublist.cons _ (List.Sublist.cons₂ _ (List.Sublist.cons₂ _ List.Sublist.slnil))
  exact ⟨rfl, hsub,
    (C7_sorted_descending_stable [demoRepoA, demoRepoB]).2 _ _ rfl hsub⟩

end Extractor
